import Mathlib

/-!
Shallow embedding of the ABC rejection sampler of `abc_interact.ipynb`.

Real scalars are modelled as rationals so every definition is executable.
The shared NumPy random source is modelled as explicit streams of draws
indexed by the loop-iteration counter, and the opaque scipy statistic
`anderson_ksamp` is an abstract parameter.  Python exceptions are modelled
with `Except`.
-/

namespace AbcInteract

/-- Errors that abort a run.  Unpacking a parameter vector of the wrong
length raises in Python (the `DimensionMismatch` of the design taxonomy),
`0/0` on integers raises `ZeroDivisionError`, and `np.random.randn` with a
negative count raises `ValueError`. -/
inductive SamplerError where
  | dimensionMismatch
  | zeroDivision
  | negativeDrawSize
  deriving DecidableEq, Repr

/-- Value returned by a log-prior: a finite rational or the float `-inf`. -/
inductive PyFloat where
  | fin (q : ℚ)
  | ninf
  deriving DecidableEq, Repr

/-- Models `np.isfinite` on the values a log-prior can return. -/
def PyFloat.isfinite : PyFloat → Bool
  | .fin _ => true
  | .ninf => false

/-- The joint support region tested by `lnprior` on the four unpacked
components of a parameter vector. -/
def inBounds4 (mean1 mean2 std fraction : ℚ) : Prop :=
  -10 < mean1 ∧ mean1 < 20 ∧ -10 < mean2 ∧ mean2 < 20
    ∧ 0 < std ∧ std < 10 ∧ 0 ≤ fraction ∧ fraction ≤ 1

instance (mean1 mean2 std fraction : ℚ) :
    Decidable (inBounds4 mean1 mean2 std fraction) := by
  unfold inBounds4; infer_instance

/-- Embeds `lnprior`: the unpacking `mean1, mean2, std, fraction = theta`
fails on any length other than four; inside the bounds the log-density is
the constant `0`, outside it is `-inf`. -/
def lnprior (theta : List ℚ) : Except SamplerError PyFloat :=
  match theta with
  | [mean1, mean2, std, fraction] =>
    if inBounds4 mean1 mean2 std fraction then .ok (.fin 0) else .ok .ninf
  | _ => .error .dimensionMismatch

/-- Vector of draws `randn(n)` read off a stream `g`. -/
def randnVec (g : ℕ → ℚ) (n : ℕ) : List ℚ :=
  (List.range n).map g

/-- Embeds `propose_step`: `theta + scale * randn(len(theta))`, with the
standard-normal draw vector supplied explicitly as `randn`. -/
def propose_step (theta : List ℚ) (scale : ℚ) (randn : List ℚ) : List ℚ :=
  List.zipWith (fun t r => t + scale * r) theta randn

/-- Python `int()` on a real value truncates toward zero. -/
def pyInt (q : ℚ) : ℤ :=
  if 0 ≤ q then ⌊q⌋ else ⌈q⌉

/-- Embeds `simulate_dataset`: unpack `theta` (any length other than four
fails), draw `int((1-fraction)*len(x))` values around `mean1` and
`int(fraction*len(x))` values around `mean2`, and concatenate.  `xLen` is
`len(x)` (500 in the notebook); `g1`, `g2` are the randn streams of the two
sub-draws; numpy rejects a negative draw count. -/
def simulate_dataset (xLen : ℕ) (g1 g2 : ℕ → ℚ) (theta : List ℚ) :
    Except SamplerError (List ℚ) :=
  match theta with
  | [mean1, mean2, std, fraction] =>
    let n1 : ℤ := pyInt ((1 - fraction) * (xLen : ℚ))
    let n2 : ℤ := pyInt (fraction * (xLen : ℚ))
    if n1 < 0 ∨ n2 < 0 then
      .error .negativeDrawSize
    else
      .ok ((randnVec g1 n1.toNat).map (fun r => mean1 + std * r)
            ++ (randnVec g2 n2.toNat).map (fun r => mean2 + std * r))
  | _ => .error .dimensionMismatch

/-- Embeds `distance`: the two-sample Anderson-Darling statistic plus
`1.31`.  The statistic lives in scipy and is kept abstract as the parameter
`adStat`, applied as in the source to the pair `(y_sim, y_obs)`. -/
def distance (adStat : List ℚ → List ℚ → ℚ) (y_obs y_sim : List ℚ) : ℚ :=
  adStat y_sim y_obs + 131 / 100

/-- Configuration of one run of `rejection_sampler`: its arguments together
with the ambient randomness.  `perturb k i` is the `i`-th component of the
randn draw of loop iteration `k`; `simulate_y k theta` is the synthetic
dataset the forward simulator produces at iteration `k` (absorbing the
simulator's random draws); `adStat` is the abstract scipy statistic used by
the global `distance`. -/
structure Env where
  y_obs : List ℚ
  h : ℚ
  n_steps : ℕ
  scale : ℚ
  prior : List ℚ → Except SamplerError PyFloat
  simulate_y : ℕ → List ℚ → Except SamplerError (List ℚ)
  adStat : List ℚ → List ℚ → ℚ
  perturb : ℕ → ℕ → ℚ

/-- Mutable state of the sampling loop: the current parameter vector, the
two counters, the samples array, and the count of loop iterations so far
(which indexes the random streams). -/
structure SState where
  theta : List ℚ
  accepted_steps : ℕ
  total_steps : ℕ
  samples : List (List ℚ)
  attempt : ℕ
  deriving DecidableEq, Repr

/-- The candidate proposed from state `s`. -/
def proposalAt (env : Env) (s : SState) : List ℚ :=
  propose_step s.theta env.scale (randnVec (env.perturb s.attempt) s.theta.length)

/-- One iteration of the while loop of `rejection_sampler`: propose, gate on
the prior, and for a prior-valid candidate simulate, score, count the
attempt, and accept or reject against the tolerance `h`. -/
def stepIter (env : Env) (s : SState) : Except SamplerError SState :=
  match env.prior (proposalAt env s) with
  | .error e => .error e
  | .ok p =>
    if p.isfinite then
      match env.simulate_y s.attempt (proposalAt env s) with
      | .error e => .error e
      | .ok y_sim =>
        if distance env.adStat env.y_obs y_sim ≤ env.h then
          .ok { theta := proposalAt env s
                accepted_steps := s.accepted_steps + 1
                total_steps := s.total_steps + 1
                samples := s.samples.set s.accepted_steps (proposalAt env s)
                attempt := s.attempt + 1 }
        else
          .ok { s with total_steps := s.total_steps + 1
                       attempt := s.attempt + 1 }
    else
      .ok { s with attempt := s.attempt + 1 }

/-- The while loop, run with explicit fuel: `.ok none` means the fuel ran
out with the loop still going; `.ok (some s)` that the loop exited. -/
def runFuel (env : Env) : ℕ → SState → Except SamplerError (Option SState)
  | 0, _ => .ok none
  | fuel + 1, s =>
    if s.accepted_steps < env.n_steps then
      match stepIter env s with
      | .error e => .error e
      | .ok s' => runFuel env fuel s'
    else
      .ok (some s)

/-- Initial loop state of `rejection_sampler`: both counters zero and
`samples = np.zeros((n_steps, len(theta)))`. -/
def initState (env : Env) (theta : List ℚ) : SState :=
  { theta := theta
    accepted_steps := 0
    total_steps := 0
    samples := List.replicate env.n_steps (List.replicate theta.length 0)
    attempt := 0 }

/-- Final bookkeeping of `rejection_sampler`: the acceptance-rate division
`accepted_steps / total_steps` (a `ZeroDivisionError` when `total_steps`
is zero) and the returned samples array. -/
def finish (s : SState) : Except SamplerError (List (List ℚ) × ℚ) :=
  if s.total_steps = 0 then .error .zeroDivision
  else .ok (s.samples, (s.accepted_steps : ℚ) / (s.total_steps : ℚ))

/-- Embeds `rejection_sampler`: run the loop from the initial state; on a
normal loop exit report the acceptance rate and return the samples. -/
def rejection_sampler (env : Env) (theta : List ℚ) (fuel : ℕ) :
    Except SamplerError (Option (List (List ℚ) × ℚ)) :=
  match runFuel env fuel (initState env theta) with
  | .error e => .error e
  | .ok none => .ok none
  | .ok (some s) =>
    match finish s with
    | .error e => .error e
    | .ok out => .ok (some out)

/-- The while loop instrumented with the chronological list of accepted
candidates: identical to `runFuel` except that every accepted candidate is
also appended to the trace `acc`. -/
def runTrace (env : Env) : ℕ → SState → List (List ℚ) →
    Except SamplerError (Option (SState × List (List ℚ)))
  | 0, _, _ => .ok none
  | fuel + 1, s, acc =>
    if s.accepted_steps < env.n_steps then
      match stepIter env s with
      | .error e => .error e
      | .ok s' =>
        if s'.accepted_steps = s.accepted_steps then
          runTrace env fuel s' acc
        else
          runTrace env fuel s' (acc ++ [s'.theta])
    else
      .ok (some (s, acc))

/-- Relation between a loop state and the chronological list of candidates
accepted so far: the samples array has its full `n_steps` slots,
`accepted_steps` counts the accepted candidates, and the filled prefix of
the array is exactly that list. -/
def chainInv (env : Env) (s : SState) (acc : List (List ℚ)) : Prop :=
  s.samples.length = env.n_steps ∧ s.accepted_steps = acc.length ∧
    s.samples.take s.accepted_steps = acc

/-- A row of the samples array that is a four-component vector inside the
support region of `lnprior`. -/
def rowInSupport (row : List ℚ) : Prop :=
  ∃ m1 m2 sd f, row = [m1, m2, sd, f] ∧ inBounds4 m1 m2 sd f

/-! ### Concrete fixtures used by the witnesses -/

/-- A configuration whose first proposal is always accepted: the proposal
perturbation is zero, the simulator returns an empty dataset, the statistic
is constantly `0`, so the distance is `1.31 ≤ h = 2`. -/
def envAccept : Env :=
  { y_obs := [1, 2]
    h := 2
    n_steps := 1
    scale := 1
    prior := lnprior
    simulate_y := fun _ _ => .ok []
    adStat := fun _ _ => 0
    perturb := fun _ _ => 0 }

/-- An in-bounds starting vector for `envAccept`. -/
def thetaA : List ℚ := [0, 0, 1, 1]

/-- The state after the single accepting iteration of `envAccept`. -/
def sfA : SState :=
  { theta := [0, 0, 1, 1]
    accepted_steps := 1
    total_steps := 1
    samples := [[0, 0, 1, 1]]
    attempt := 1 }

/-- A start state whose first component `30` lies outside the bounds of
`lnprior`, so the zero-perturbation proposal is prior-rejected. -/
def s30 : SState := initState envAccept [30, 0, 1, 1]

/-- A configuration in which every proposal passes the prior but no
distance ever lies within the tolerance (`11.31 > h = 0`). -/
def envNoAcc : Env :=
  { y_obs := []
    h := 0
    n_steps := 1
    scale := 1
    prior := fun _ => .ok (.fin 0)
    simulate_y := fun _ _ => .ok []
    adStat := fun _ _ => 10
    perturb := fun _ _ => 0 }

/-- The accepting configuration with target sample count zero. -/
def envZero : Env := { envAccept with n_steps := 0 }

/-! ### Basic lemmas -/

/-- Setting slot `k` and then taking `k + 1` slots appends the new value to
the first `k` slots. -/
theorem take_set_append (l : List α) (k : ℕ) (v : α) (h : k < l.length) :
    (l.set k v).take (k + 1) = l.take k ++ [v] := by
  rw [List.take_succ]
  congr 1
  · rw [List.set_take]
    exact List.set_eq_of_length_le (by simp)
  · simp [List.getElem?_set_self (by simpa using h)]

/-- The proposal keeps the dimensionality of the current vector. -/
theorem proposalAt_length (env : Env) (s : SState) :
    (proposalAt env s).length = s.theta.length := by
  simp [proposalAt, propose_step, randnVec]

/-- A finite `lnprior` value certifies that the vector has four components
lying in the support region. -/
theorem lnprior_finite (nt : List ℚ) (p : PyFloat)
    (h : lnprior nt = .ok p) (hf : p.isfinite = true) :
    ∃ m1 m2 sd f, nt = [m1, m2, sd, f] ∧ inBounds4 m1 m2 sd f := by
  unfold lnprior at h
  split at h
  · split at h
    · exact ⟨_, _, _, _, rfl, by assumption⟩
    · cases h; cases hf
  · cases h

/-! ### Case analysis of one loop iteration -/

/-- A prior-invalid candidate is dropped: the state is unchanged apart from
the iteration counter. -/
theorem stepIter_prior_invalid (env : Env) (s : SState)
    (hp : env.prior (proposalAt env s) = .ok .ninf) :
    stepIter env s = .ok { s with attempt := s.attempt + 1 } := by
  simp [stepIter, hp, PyFloat.isfinite]

/-- A prior-valid candidate whose distance lies within the tolerance is
accepted: `theta` moves to the candidate, the candidate is written at slot
`accepted_steps`, and both counters advance. -/
theorem stepIter_accept (env : Env) (s : SState) (p : PyFloat) (y : List ℚ)
    (hp : env.prior (proposalAt env s) = .ok p) (hf : p.isfinite = true)
    (hy : env.simulate_y s.attempt (proposalAt env s) = .ok y)
    (hd : distance env.adStat env.y_obs y ≤ env.h) :
    stepIter env s = .ok
      { theta := proposalAt env s
        accepted_steps := s.accepted_steps + 1
        total_steps := s.total_steps + 1
        samples := s.samples.set s.accepted_steps (proposalAt env s)
        attempt := s.attempt + 1 } := by
  simp [stepIter, hp, hf, hy, hd]

/-- A prior-valid candidate whose distance exceeds the tolerance is
rejected: only `total_steps` and the iteration counter advance. -/
theorem stepIter_reject (env : Env) (s : SState) (p : PyFloat) (y : List ℚ)
    (hp : env.prior (proposalAt env s) = .ok p) (hf : p.isfinite = true)
    (hy : env.simulate_y s.attempt (proposalAt env s) = .ok y)
    (hd : env.h < distance env.adStat env.y_obs y) :
    stepIter env s = .ok
      { s with total_steps := s.total_steps + 1, attempt := s.attempt + 1 } := by
  simp [stepIter, hp, hf, hy, not_le.2 hd]

/-- Every successful iteration produces one of three state shapes: a
prior-rejected proposal, a distance-rejected proposal, or an accepted
proposal. -/
theorem stepIter_shape (env : Env) (s s' : SState)
    (h : stepIter env s = .ok s') :
    s' = { s with attempt := s.attempt + 1 } ∨
    s' = { s with total_steps := s.total_steps + 1, attempt := s.attempt + 1 } ∨
    s' = { theta := proposalAt env s
           accepted_steps := s.accepted_steps + 1
           total_steps := s.total_steps + 1
           samples := s.samples.set s.accepted_steps (proposalAt env s)
           attempt := s.attempt + 1 } := by
  unfold stepIter at h
  split at h
  · cases h
  · split at h
    · split at h
      · cases h
      · split at h
        · exact Or.inr (Or.inr (Except.ok.inj h).symm)
        · exact Or.inr (Or.inl (Except.ok.inj h).symm)
    · exact Or.inl (Except.ok.inj h).symm

/-- An iteration that changes `accepted_steps` is exactly an acceptance: the
candidate passed the prior, its simulated dataset scored within tolerance,
and the state advanced to the acceptance shape. -/
theorem stepIter_accept_char (env : Env) (s s' : SState)
    (h : stepIter env s = .ok s')
    (hacc : s'.accepted_steps ≠ s.accepted_steps) :
    (∃ p, env.prior (proposalAt env s) = .ok p ∧ p.isfinite = true) ∧
    (∃ y, env.simulate_y s.attempt (proposalAt env s) = .ok y ∧
        distance env.adStat env.y_obs y ≤ env.h) ∧
    s' = { theta := proposalAt env s
           accepted_steps := s.accepted_steps + 1
           total_steps := s.total_steps + 1
           samples := s.samples.set s.accepted_steps (proposalAt env s)
           attempt := s.attempt + 1 } := by
  unfold stepIter at h
  split at h
  · cases h
  · split at h
    · split at h
      · cases h
      · split at h
        · refine ⟨⟨_, by assumption, by assumption⟩, ⟨_, by assumption, by assumption⟩,
            (Except.ok.inj h).symm⟩
        · cases Except.ok.inj h; simp at hacc
    · cases Except.ok.inj h; simp at hacc

/-- A successful iteration advances `total_steps` by one exactly when the
proposal passed the prior filter, and never advances it otherwise. -/
theorem stepIter_total_iff (env : Env) (s s' : SState)
    (h : stepIter env s = .ok s') :
    ((∃ p, env.prior (proposalAt env s) = .ok p ∧ p.isfinite = true) ↔
      s'.total_steps = s.total_steps + 1) ∧
    (s'.total_steps = s.total_steps ∨ s'.total_steps = s.total_steps + 1) := by
  unfold stepIter at h
  split at h
  · cases h
  · rename_i p hp
    split at h
    · split at h
      · cases h
      · constructor
        · constructor
          · intro _
            split at h <;> cases Except.ok.inj h <;> rfl
          · intro _
            exact ⟨p, hp, by assumption⟩
        · split at h <;> cases Except.ok.inj h <;> exact Or.inr rfl
    · cases Except.ok.inj h
      constructor
      · constructor
        · rintro ⟨q, hq, hqf⟩
          rw [hp] at hq
          cases Except.ok.inj hq
          exact absurd hqf (by assumption)
        · intro hc
          simp at hc
      · exact Or.inl rfl

/-! ### Transport of invariants along the loop -/

/-- A predicate preserved by every guarded iteration transports from the
initial state of a terminating run to its final state. -/
theorem runFuel_preserve (env : Env) (P : SState → Prop)
    (hstep : ∀ s s', s.accepted_steps < env.n_steps →
      stepIter env s = .ok s' → P s → P s') :
    ∀ fuel s sf, runFuel env fuel s = .ok (some sf) → P s → P sf := by
  intro fuel
  induction fuel with
  | zero =>
    intro s sf h
    simp [runFuel] at h
  | succ n ih =>
    intro s sf h hP
    rw [runFuel] at h
    split at h
    · cases hs : stepIter env s with
      | error e => rw [hs] at h; cases h
      | ok s' =>
        rw [hs] at h
        exact ih s' sf h (hstep s s' (by assumption) hs hP)
    · cases Option.some.inj (Except.ok.inj h)
      exact hP

/-- The loop only exits once `accepted_steps` has reached `n_steps`. -/
theorem runFuel_exit (env : Env) :
    ∀ fuel s sf, runFuel env fuel s = .ok (some sf) →
      env.n_steps ≤ sf.accepted_steps := by
  intro fuel
  induction fuel with
  | zero =>
    intro s sf h
    simp [runFuel] at h
  | succ n ih =>
    intro s sf h
    rw [runFuel] at h
    split at h
    · cases hs : stepIter env s with
      | error e => rw [hs] at h; cases h
      | ok s' => rw [hs] at h; exact ih s' sf h
    · cases Option.some.inj (Except.ok.inj h)
      exact Nat.le_of_not_lt (by assumption)

/-- The initial state is related to the empty acceptance list. -/
theorem chainInv_init (env : Env) (theta : List ℚ) :
    chainInv env (initState env theta) [] := by
  simp [chainInv, initState]

/-- One guarded iteration preserves `chainInv`, appending the freshly
accepted candidate to the list exactly when `accepted_steps` moved. -/
theorem chainInv_step (env : Env) (s s' : SState) (acc : List (List ℚ))
    (hg : s.accepted_steps < env.n_steps) (hstep : stepIter env s = .ok s')
    (hInv : chainInv env s acc) :
    (s'.accepted_steps = s.accepted_steps → chainInv env s' acc) ∧
    (s'.accepted_steps ≠ s.accepted_steps →
      chainInv env s' (acc ++ [s'.theta])) := by
  obtain ⟨hlen, hcount, htake⟩ := hInv
  rcases stepIter_shape env s s' hstep with h | h | h
  · subst h
    exact ⟨fun _ => ⟨hlen, hcount, htake⟩, fun hne => absurd rfl hne⟩
  · subst h
    exact ⟨fun _ => ⟨hlen, hcount, htake⟩, fun hne => absurd rfl hne⟩
  · subst h
    refine ⟨fun he => by simp at he, fun _ => ⟨by simpa using hlen, by simp [hcount], ?_⟩⟩
    have hlt : s.accepted_steps < s.samples.length := by
      rw [hlen]; exact hg
    simp [take_set_append s.samples s.accepted_steps _ hlt, htake]

/-- A terminating run of the plain loop is matched, state for state, by the
instrumented loop, and `chainInv` holds at the final state. -/
theorem runTrace_correct (env : Env) :
    ∀ fuel s acc sf, runFuel env fuel s = .ok (some sf) → chainInv env s acc →
      ∃ accf, runTrace env fuel s acc = .ok (some (sf, accf)) ∧
        chainInv env sf accf := by
  intro fuel
  induction fuel with
  | zero =>
    intro s acc sf h
    simp [runFuel] at h
  | succ n ih =>
    intro s acc sf h hInv
    rw [runFuel] at h
    split at h
    · cases hs : stepIter env s with
      | error e => rw [hs] at h; cases h
      | ok s' =>
        rw [hs] at h
        by_cases he : s'.accepted_steps = s.accepted_steps
        · obtain ⟨accf, htr, hI⟩ :=
            ih s' acc sf h ((chainInv_step env s s' acc (by assumption) hs hInv).1 he)
          refine ⟨accf, ?_, hI⟩
          rw [runTrace, if_pos (by assumption : s.accepted_steps < env.n_steps), hs]
          show (if s'.accepted_steps = s.accepted_steps then runTrace env n s' acc
            else runTrace env n s' (acc ++ [s'.theta])) = _
          rw [if_pos he]
          exact htr
        · obtain ⟨accf, htr, hI⟩ :=
            ih s' (acc ++ [s'.theta]) sf h
              ((chainInv_step env s s' acc (by assumption) hs hInv).2 he)
          refine ⟨accf, ?_, hI⟩
          rw [runTrace, if_pos (by assumption : s.accepted_steps < env.n_steps), hs]
          show (if s'.accepted_steps = s.accepted_steps then runTrace env n s' acc
            else runTrace env n s' (acc ++ [s'.theta])) = _
          rw [if_neg he]
          exact htr
    · cases Option.some.inj (Except.ok.inj h)
      exact ⟨acc, by rw [runTrace, if_neg (by assumption)], hInv⟩

/-! ### Counter bookkeeping -/

/-- Per-iteration counter arithmetic: each counter is unchanged or advances
by one, and an acceptance also counts as a prior-valid attempt. -/
theorem step_counters (env : Env) (s s' : SState)
    (hstep : stepIter env s = .ok s') :
    (s'.accepted_steps = s.accepted_steps ∨
      s'.accepted_steps = s.accepted_steps + 1) ∧
    (s'.total_steps = s.total_steps ∨ s'.total_steps = s.total_steps + 1) ∧
    (s'.accepted_steps = s.accepted_steps + 1 →
      s'.total_steps = s.total_steps + 1) := by
  rcases stepIter_shape env s s' hstep with h | h | h <;> subst h <;> simp

/-- At the end of a terminating run, the accepted count is bounded by the
count of prior-valid attempts. -/
theorem run_accepted_le_total (env : Env) (fuel : ℕ) (theta : List ℚ)
    (sf : SState)
    (hrun : runFuel env fuel (initState env theta) = .ok (some sf)) :
    sf.accepted_steps ≤ sf.total_steps := by
  refine runFuel_preserve env (fun s => s.accepted_steps ≤ s.total_steps)
    (fun s s' _ hstep hP => ?_) fuel _ sf hrun (by simp [initState])
  obtain ⟨ha, ht, hat⟩ := step_counters env s s' hstep
  omega

/-- At the end of a terminating run, the accepted count has not overshot
the target. -/
theorem run_accepted_le_n (env : Env) (fuel : ℕ) (theta : List ℚ)
    (sf : SState)
    (hrun : runFuel env fuel (initState env theta) = .ok (some sf)) :
    sf.accepted_steps ≤ env.n_steps := by
  refine runFuel_preserve env (fun s => s.accepted_steps ≤ env.n_steps)
    (fun s s' hg hstep hP => ?_) fuel _ sf hrun (by simp [initState])
  obtain ⟨ha, ht, hat⟩ := step_counters env s s' hstep
  omega

/-! ### Support of the prior -/

/-- With `lnprior` as the prior, a guarded iteration keeps every filled
row of the samples array inside the support region. -/
theorem support_preserved (env : Env) (hp : env.prior = lnprior)
    (s s' : SState) (hg : s.accepted_steps < env.n_steps)
    (hstep : stepIter env s = .ok s')
    (hP : s.samples.length = env.n_steps ∧
      ∀ row ∈ s.samples.take s.accepted_steps, rowInSupport row) :
    s'.samples.length = env.n_steps ∧
    ∀ row ∈ s'.samples.take s'.accepted_steps, rowInSupport row := by
  obtain ⟨hlen, hrows⟩ := hP
  by_cases he : s'.accepted_steps = s.accepted_steps
  · rcases stepIter_shape env s s' hstep with h | h | h <;> subst h
    · exact ⟨hlen, hrows⟩
    · exact ⟨hlen, hrows⟩
    · simp at he
  · obtain ⟨⟨p, hpr, hf⟩, _, hshape⟩ := stepIter_accept_char env s s' hstep he
    subst hshape
    have hsupp : rowInSupport (proposalAt env s) := by
      rw [hp] at hpr
      obtain ⟨m1, m2, sd, f, hrow, hb⟩ := lnprior_finite _ p hpr hf
      exact ⟨m1, m2, sd, f, hrow, hb⟩
    refine ⟨by simpa using hlen, ?_⟩
    have hlt : s.accepted_steps < s.samples.length := by rw [hlen]; exact hg
    intro row hrow
    rw [show ({ theta := proposalAt env s
                accepted_steps := s.accepted_steps + 1
                total_steps := s.total_steps + 1
                samples := s.samples.set s.accepted_steps (proposalAt env s)
                attempt := s.attempt + 1 } : SState).samples =
        s.samples.set s.accepted_steps (proposalAt env s) from rfl,
      show ({ theta := proposalAt env s
              accepted_steps := s.accepted_steps + 1
              total_steps := s.total_steps + 1
              samples := s.samples.set s.accepted_steps (proposalAt env s)
              attempt := s.attempt + 1 } : SState).accepted_steps =
        s.accepted_steps + 1 from rfl,
      take_set_append _ _ _ hlt] at hrow
    rcases List.mem_append.1 hrow with hmem | hmem
    · exact hrows row hmem
    · rw [List.mem_singleton.1 hmem]
      exact hsupp

/-! ### Wrong dimensionality -/

/-- Unpacking a vector whose length is not four fails in `lnprior`. -/
theorem lnprior_wrong_length (theta : List ℚ) (h4 : theta.length ≠ 4) :
    lnprior theta = .error .dimensionMismatch := by
  unfold lnprior
  split
  · exact absurd rfl h4
  · rfl

/-- Unpacking a vector whose length is not four fails in
`simulate_dataset`. -/
theorem simulate_dataset_wrong_length (xLen : ℕ) (g1 g2 : ℕ → ℚ)
    (theta : List ℚ) (h4 : theta.length ≠ 4) :
    simulate_dataset xLen g1 g2 theta = .error .dimensionMismatch := by
  unfold simulate_dataset
  split
  · exact absurd rfl h4
  · rfl

/-- A prior that raises propagates out of the iteration at once. -/
theorem stepIter_error_of_prior_error (env : Env) (s : SState)
    (e : SamplerError) (hpr : env.prior (proposalAt env s) = .error e) :
    stepIter env s = .error e := by
  simp [stepIter, hpr]

/-! ### Claim theorems -/

/-- C1: a terminating call of `rejection_sampler` with `n_steps ≥ 1` exits
the loop exactly when `accepted_steps` reaches `n_steps`, and the samples
array has exactly `n_steps` rows whose `i`-th row is the `i`-th accepted
candidate in chronological order of acceptance (the trace collected by the
instrumented loop `runTrace`). -/
theorem chain_is_accepted_in_order (env : Env) (theta : List ℚ) (fuel : ℕ)
    (sf : SState)
    (hrun : runFuel env fuel (initState env theta) = .ok (some sf))
    (_hn : 1 ≤ env.n_steps) :
    sf.accepted_steps = env.n_steps ∧
    sf.samples.length = env.n_steps ∧
    ∃ acc, runTrace env fuel (initState env theta) [] = .ok (some (sf, acc)) ∧
      acc.length = env.n_steps ∧ sf.samples = acc := by
  obtain ⟨accf, htr, hlen, hcount, htake⟩ :=
    runTrace_correct env fuel _ [] sf hrun (chainInv_init env theta)
  have hexit := runFuel_exit env fuel _ sf hrun
  have hle : sf.accepted_steps ≤ env.n_steps := by
    have hm := congrArg List.length htake
    simp only [List.length_take, hlen] at hm
    omega
  have heq : sf.accepted_steps = env.n_steps := le_antisymm hle hexit
  refine ⟨heq, hlen, accf, htr, by omega, ?_⟩
  rw [← htake, heq, ← hlen, List.take_length]

/-- C1 witness: the accepting fixture terminates in one accepted step and
its chain is the singleton acceptance trace. -/
theorem chain_is_accepted_in_order_witness :
    sfA.accepted_steps = envAccept.n_steps ∧
    sfA.samples.length = envAccept.n_steps ∧
    ∃ acc, runTrace envAccept 2 (initState envAccept thetaA) [] =
        .ok (some (sfA, acc)) ∧
      acc.length = envAccept.n_steps ∧ sfA.samples = acc :=
  chain_is_accepted_in_order envAccept thetaA 2 sfA
    (by norm_num [envAccept, thetaA, sfA, runFuel, stepIter, initState,
      proposalAt, propose_step, randnVec, lnprior, inBounds4, distance,
      PyFloat.isfinite, List.range_succ])
    (Nat.le_refl 1)

/-- C2: for a prior-valid candidate, a distance within the tolerance
(inclusive of equality, by `≤`) moves `theta` to the candidate, writes the
candidate at slot `accepted_steps`, and advances both counters; a distance
beyond the tolerance leaves `theta`, the samples array and `accepted_steps`
unchanged, advancing only `total_steps`. -/
theorem accept_within_tolerance_reject_beyond (env : Env) (s : SState)
    (p : PyFloat) (y : List ℚ)
    (hp : env.prior (proposalAt env s) = .ok p) (hf : p.isfinite = true)
    (hy : env.simulate_y s.attempt (proposalAt env s) = .ok y) :
    (distance env.adStat env.y_obs y ≤ env.h →
      stepIter env s = .ok
        { theta := proposalAt env s
          accepted_steps := s.accepted_steps + 1
          total_steps := s.total_steps + 1
          samples := s.samples.set s.accepted_steps (proposalAt env s)
          attempt := s.attempt + 1 }) ∧
    (env.h < distance env.adStat env.y_obs y →
      stepIter env s = .ok
        { s with total_steps := s.total_steps + 1,
                 attempt := s.attempt + 1 }) :=
  ⟨fun hd => stepIter_accept env s p y hp hf hy hd,
   fun hd => stepIter_reject env s p y hp hf hy hd⟩

/-- C2 witness: in the accepting fixture the distance `1.31` lies within
`h = 2` and the first iteration accepts, writing slot `0`. -/
theorem accept_within_tolerance_reject_beyond_witness :
    stepIter envAccept (initState envAccept thetaA) = .ok
      { theta := proposalAt envAccept (initState envAccept thetaA)
        accepted_steps := (initState envAccept thetaA).accepted_steps + 1
        total_steps := (initState envAccept thetaA).total_steps + 1
        samples := (initState envAccept thetaA).samples.set
          (initState envAccept thetaA).accepted_steps
          (proposalAt envAccept (initState envAccept thetaA))
        attempt := (initState envAccept thetaA).attempt + 1 } :=
  (accept_within_tolerance_reject_beyond envAccept
      (initState envAccept thetaA) (.fin 0) []
      (by norm_num [envAccept, thetaA, initState, proposalAt, propose_step,
        randnVec, lnprior, inBounds4, List.range_succ])
      rfl rfl).1
    (by norm_num [envAccept, distance])

/-- C4: both counters start at zero; along every successful iteration they
are nondecreasing, `accepted_steps ≤ total_steps` is preserved,
`total_steps` advances by one exactly when the proposal passed the prior
filter, and whenever `accepted_steps` moves the accepted candidate was
written at the old `accepted_steps`, which is thus the next write index;
consequently `accepted_steps ≤ total_steps` holds at the end of every
terminating run. -/
theorem counter_invariants (env : Env) :
    (∀ theta, (initState env theta).accepted_steps = 0 ∧
      (initState env theta).total_steps = 0) ∧
    (∀ s s', stepIter env s = .ok s' →
      (s.accepted_steps ≤ s.total_steps →
        s'.accepted_steps ≤ s'.total_steps) ∧
      s.accepted_steps ≤ s'.accepted_steps ∧
      s.total_steps ≤ s'.total_steps ∧
      ((∃ p, env.prior (proposalAt env s) = .ok p ∧ p.isfinite = true) ↔
        s'.total_steps = s.total_steps + 1) ∧
      (s'.accepted_steps ≠ s.accepted_steps →
        s'.accepted_steps = s.accepted_steps + 1 ∧
        s'.samples = s.samples.set s.accepted_steps (proposalAt env s))) ∧
    (∀ fuel theta sf, runFuel env fuel (initState env theta) = .ok (some sf) →
      sf.accepted_steps ≤ sf.total_steps) := by
  refine ⟨fun theta => ⟨rfl, rfl⟩, fun s s' hstep => ?_,
    fun fuel theta sf hrun => run_accepted_le_total env fuel theta sf hrun⟩
  obtain ⟨ha, ht, hat⟩ := step_counters env s s' hstep
  refine ⟨by omega, by omega, by omega,
    (stepIter_total_iff env s s' hstep).1, fun hne => ?_⟩
  obtain ⟨-, -, hshape⟩ := stepIter_accept_char env s s' hstep hne
  subst hshape
  exact ⟨rfl, rfl⟩

/-- C4 witness: counter facts instantiated on the accepting fixture's
initial state and its single accepting iteration. -/
theorem counter_invariants_witness :
    ((initState envAccept thetaA).accepted_steps = 0 ∧
      (initState envAccept thetaA).total_steps = 0) ∧
    ((initState envAccept thetaA).accepted_steps ≤ sfA.accepted_steps ∧
      (initState envAccept thetaA).total_steps ≤ sfA.total_steps) ∧
    sfA.accepted_steps ≤ sfA.total_steps := by
  have hstep : stepIter envAccept (initState envAccept thetaA) = .ok sfA := by
    norm_num [envAccept, thetaA, sfA, stepIter, initState, proposalAt,
      propose_step, randnVec, lnprior, inBounds4, distance,
      PyFloat.isfinite, List.range_succ]
  have hrun : runFuel envAccept 2 (initState envAccept thetaA) =
      .ok (some sfA) := by
    norm_num [envAccept, thetaA, sfA, runFuel, stepIter, initState,
      proposalAt, propose_step, randnVec, lnprior, inBounds4, distance,
      PyFloat.isfinite, List.range_succ]
  refine ⟨(counter_invariants envAccept).1 thetaA, ?_, ?_⟩
  · obtain ⟨-, h1, h2, -⟩ :=
      (counter_invariants envAccept).2.1 (initState envAccept thetaA) sfA hstep
    exact ⟨h1, h2⟩
  · exact (counter_invariants envAccept).2.2 2 thetaA sfA hrun

/-- C3: a prior-invalid candidate (log-prior `-inf`) is discarded with
`theta`, both counters and the samples array unchanged — and the iteration's
outcome does not depend on the forward simulator or the distance statistic,
so neither is invoked; moreover, with `lnprior` as the prior, every row ever
filled into the samples array of a run lies inside the support region. -/
theorem prior_gate_no_cost (env : Env) :
    (∀ s f g, env.prior (proposalAt env s) = .ok .ninf →
      stepIter { env with simulate_y := f, adStat := g } s =
        .ok { s with attempt := s.attempt + 1 }) ∧
    (env.prior = lnprior →
      ∀ fuel theta sf, runFuel env fuel (initState env theta) = .ok (some sf) →
        ∀ row ∈ sf.samples.take sf.accepted_steps, rowInSupport row) := by
  constructor
  · intro s f g hpr
    exact stepIter_prior_invalid { env with simulate_y := f, adStat := g } s hpr
  · intro hp fuel theta sf hrun
    exact (runFuel_preserve env
      (fun s => s.samples.length = env.n_steps ∧
        ∀ row ∈ s.samples.take s.accepted_steps, rowInSupport row)
      (support_preserved env hp) fuel _ sf hrun
      (by simp [initState])).2

/-- C3 witness: an out-of-bounds start (first component `30 ≥ 20`) is
prior-rejected with no state change beyond the iteration counter, and the
accepting fixture's filled chain rows all lie in the support region. -/
theorem prior_gate_no_cost_witness :
    stepIter envAccept s30 = .ok { s30 with attempt := s30.attempt + 1 } ∧
    ∀ row ∈ sfA.samples.take sfA.accepted_steps, rowInSupport row :=
  ⟨(prior_gate_no_cost envAccept).1 s30 envAccept.simulate_y envAccept.adStat
      (by norm_num [envAccept, s30, initState, proposalAt, propose_step,
        randnVec, lnprior, inBounds4, List.range_succ]),
   (prior_gate_no_cost envAccept).2 rfl 2 thetaA sfA
      (by norm_num [envAccept, thetaA, sfA, runFuel, stepIter, initState,
        proposalAt, propose_step, randnVec, lnprior, inBounds4, distance,
        PyFloat.isfinite, List.range_succ])⟩

/-- C5: when no proposal is ever accepted — every iteration succeeds but no
prior-valid candidate scores within the tolerance — `accepted_steps` never
increases, and `rejection_sampler` exhausts any amount of fuel without
terminating. -/
theorem no_acceptance_never_terminates (env : Env) (hn : 1 ≤ env.n_steps)
    (hsafe : ∀ s, ∃ s', stepIter env s = .ok s')
    (hno : ∀ s p y, env.prior (proposalAt env s) = .ok p → p.isfinite = true →
      env.simulate_y s.attempt (proposalAt env s) = .ok y →
      env.h < distance env.adStat env.y_obs y) :
    (∀ s s', stepIter env s = .ok s' →
      s'.accepted_steps = s.accepted_steps) ∧
    (∀ theta fuel, rejection_sampler env theta fuel = .ok none) := by
  have hkeep : ∀ s s', stepIter env s = .ok s' →
      s'.accepted_steps = s.accepted_steps := by
    intro s s' hstep
    by_contra hne
    obtain ⟨⟨p, hpr, hf⟩, ⟨y, hy, hd⟩, -⟩ :=
      stepIter_accept_char env s s' hstep hne
    exact absurd hd (not_le.2 (hno s p y hpr hf hy))
  have main : ∀ fuel s, s.accepted_steps < env.n_steps →
      runFuel env fuel s = .ok none := by
    intro fuel
    induction fuel with
    | zero => intro s _; rfl
    | succ n ih =>
      intro s hlt
      obtain ⟨s', hs⟩ := hsafe s
      rw [runFuel, if_pos hlt, hs]
      exact ih s' (by rw [hkeep s s' hs]; exact hlt)
  refine ⟨hkeep, fun theta fuel => ?_⟩
  unfold rejection_sampler
  rw [main fuel _ (by simp [initState]; omega)]

/-- C5 witness: in the never-accepting fixture (distance `11.31` against
tolerance `0`) the sampler returns nothing for any fuel amount. -/
theorem no_acceptance_never_terminates_witness :
    rejection_sampler envNoAcc [5] 3 = .ok none :=
  (no_acceptance_never_terminates envNoAcc (Nat.le_refl 1)
      (fun s => ⟨{ s with total_steps := s.total_steps + 1,
                          attempt := s.attempt + 1 },
        stepIter_reject envNoAcc s (.fin 0) [] rfl rfl rfl
          (by norm_num [envNoAcc, distance])⟩)
      (fun s p y hpr _ hy => by
        cases Except.ok.inj hpr
        cases Except.ok.inj hy
        norm_num [envNoAcc, distance])).2 [5] 3

/-- C6: the distance function is a nonnegative scalar for every pair of
datasets.  Modelled from the spec: the scipy `anderson_ksamp` statistic is
external code; per the spec and the source docstring its minimum is
`-1.31`, here the hypothesis `hmin`, so the `+ 1.31` offset makes the
distance nonnegative. -/
theorem distance_nonneg (adStat : List ℚ → List ℚ → ℚ)
    (hmin : ∀ a b, -(131 / 100) ≤ adStat a b) (y_obs y_sim : List ℚ) :
    0 ≤ distance adStat y_obs y_sim := by
  have := hmin y_sim y_obs
  unfold distance
  linarith

/-- C6 witness: the constantly-zero statistic is bounded below by `-1.31`
and yields a nonnegative distance. -/
theorem distance_nonneg_witness :
    0 ≤ distance (fun _ _ => 0) [] [] :=
  distance_nonneg (fun _ _ => 0) (fun _ _ => by norm_num) [] []

/-- C7: a terminating run returns the completed samples array together with
the acceptance rate `accepted_steps / total_steps`, with `accepted_steps`
equal to `n_steps`. -/
theorem run_returns_chain_and_rate (env : Env) (theta : List ℚ) (fuel : ℕ)
    (sf : SState)
    (hrun : runFuel env fuel (initState env theta) = .ok (some sf))
    (hn : 1 ≤ env.n_steps) :
    sf.accepted_steps = env.n_steps ∧
    rejection_sampler env theta fuel =
      .ok (some (sf.samples,
        (sf.accepted_steps : ℚ) / (sf.total_steps : ℚ))) := by
  have hge := runFuel_exit env fuel _ sf hrun
  have hle := run_accepted_le_n env fuel theta sf hrun
  have htot := run_accepted_le_total env fuel theta sf hrun
  refine ⟨le_antisymm hle hge, ?_⟩
  unfold rejection_sampler
  rw [hrun]
  show (match finish sf with
    | .error e => (.error e : Except SamplerError (Option (List (List ℚ) × ℚ)))
    | .ok out => .ok (some out)) = _
  rw [finish, if_neg (by omega)]

/-- C7 witness: the accepting fixture returns its singleton chain and the
acceptance rate `1 / 1`. -/
theorem run_returns_chain_and_rate_witness :
    sfA.accepted_steps = envAccept.n_steps ∧
    rejection_sampler envAccept thetaA 2 =
      .ok (some (sfA.samples,
        (sfA.accepted_steps : ℚ) / (sfA.total_steps : ℚ))) :=
  run_returns_chain_and_rate envAccept thetaA 2 sfA
    (by norm_num [envAccept, thetaA, sfA, runFuel, stepIter, initState,
      proposalAt, propose_step, randnVec, lnprior, inBounds4, distance,
      PyFloat.isfinite, List.range_succ])
    (Nat.le_refl 1)

/-- C8 counterexample: the prior-valid vector `[0, 0, 1, 1/3]` (its
fraction lies in `[0, 1]`) makes `simulate_dataset` return normally but
with `int((2/3)·500) + int((1/3)·500) = 333 + 166 = 499` elements, one
fewer than the 500-element observed-dataset convention. -/
theorem fractional_split_shrinks_dataset :
    lnprior [0, 0, 1, (1 : ℚ)/3] = .ok (.fin 0) ∧
    (simulate_dataset 500 (fun _ => 0) (fun _ => 0)
        [0, 0, 1, (1 : ℚ)/3]).map List.length = .ok 499 ∧
    (499 : ℕ) ≠ 500 := by
  refine ⟨by norm_num [lnprior, inBounds4], ?_, by decide⟩
  have e1 : pyInt ((1 - (1 : ℚ)/3) * ((500 : ℕ) : ℚ)) = 333 := by
    rw [pyInt, if_pos (by norm_num), Int.floor_eq_iff]
    norm_num
  have e2 : pyInt ((1 : ℚ)/3 * ((500 : ℕ) : ℚ)) = 166 := by
    rw [pyInt, if_pos (by norm_num), Int.floor_eq_iff]
    norm_num
  simp only [simulate_dataset, e1, e2]
  norm_num [randnVec, Except.map]
  decide

/-- C8 amended: for any vector inside the support of `lnprior` the
simulator returns normally (including a zero-size sub-draw), but its
cardinality is `int((1-f)·N) + int(f·N)`, which is `N` or `N - 1` — not
always the observed-dataset cardinality `N`. -/
theorem simulate_dataset_prior_valid_size (xLen : ℕ) (g1 g2 : ℕ → ℚ)
    (m1 m2 sd f : ℚ) (hb : inBounds4 m1 m2 sd f) :
    ∃ n, (simulate_dataset xLen g1 g2 [m1, m2, sd, f]).map List.length =
        .ok n ∧ (n = xLen ∨ n + 1 = xLen) := by
  obtain ⟨-, -, -, -, -, -, hf0, hf1⟩ := hb
  have hx : (0 : ℚ) ≤ (xLen : ℚ) := by positivity
  have h1 : (0 : ℚ) ≤ (1 - f) * (xLen : ℚ) := mul_nonneg (by linarith) hx
  have h2 : (0 : ℚ) ≤ f * (xLen : ℚ) := mul_nonneg hf0 hx
  have e1 : pyInt ((1 - f) * (xLen : ℚ)) = ⌊(1 - f) * (xLen : ℚ)⌋ := if_pos h1
  have e2 : pyInt (f * (xLen : ℚ)) = ⌊f * (xLen : ℚ)⌋ := if_pos h2
  have hn1 : 0 ≤ ⌊(1 - f) * (xLen : ℚ)⌋ := Int.floor_nonneg.2 h1
  have hn2 : 0 ≤ ⌊f * (xLen : ℚ)⌋ := Int.floor_nonneg.2 h2
  have hub : ⌊(1 - f) * (xLen : ℚ)⌋ + ⌊f * (xLen : ℚ)⌋ ≤ (xLen : ℤ) := by
    have l1 := Int.floor_le ((1 - f) * (xLen : ℚ))
    have l2 := Int.floor_le (f * (xLen : ℚ))
    have hc : ((⌊(1 - f) * (xLen : ℚ)⌋ + ⌊f * (xLen : ℚ)⌋ : ℤ) : ℚ) ≤
        (xLen : ℚ) := by
      push_cast
      linarith
    exact_mod_cast hc
  have hlb : (xLen : ℤ) - 1 ≤ ⌊(1 - f) * (xLen : ℚ)⌋ + ⌊f * (xLen : ℚ)⌋ := by
    have l1 := Int.sub_one_lt_floor ((1 - f) * (xLen : ℚ))
    have l2 := Int.sub_one_lt_floor (f * (xLen : ℚ))
    have hc : ((xLen : ℚ)) - 2 <
        ((⌊(1 - f) * (xLen : ℚ)⌋ + ⌊f * (xLen : ℚ)⌋ : ℤ) : ℚ) := by
      push_cast
      linarith
    have hz : (xLen : ℤ) - 2 < ⌊(1 - f) * (xLen : ℚ)⌋ + ⌊f * (xLen : ℚ)⌋ := by
      exact_mod_cast hc
    omega
  refine ⟨(⌊(1 - f) * (xLen : ℚ)⌋).toNat + (⌊f * (xLen : ℚ)⌋).toNat,
    ?_, by omega⟩
  simp only [simulate_dataset, e1, e2]
  rw [if_neg (by omega)]
  norm_num [randnVec, Except.map]

/-- C8 amended witness: fraction `1` splits `500` draws as `0 + 500`: the
zero-size sub-draw is handled and the total here is exactly `500`. -/
theorem simulate_dataset_prior_valid_size_witness :
    ∃ n, (simulate_dataset 500 (fun _ => 0) (fun _ => 0)
        [0, 0, 1, 1]).map List.length = .ok n ∧ (n = 500 ∨ n + 1 = 500) :=
  simulate_dataset_prior_valid_size 500 (fun _ => 0) (fun _ => 0) 0 0 1 1
    (by norm_num [inBounds4])

/-- C9: a parameter vector whose length is not the four expected by
`lnprior` and `simulate_dataset` makes each of them fail at once with the
dimension-mismatch error, and a sampler run started from such a vector
aborts with that error on its first iteration, for every fuel amount — the
proposal is never retried. -/
theorem wrong_dimension_fails_fast (env : Env) (theta : List ℚ)
    (hp : env.prior = lnprior) (hlen : theta.length ≠ 4)
    (hn : 1 ≤ env.n_steps) :
    lnprior theta = .error .dimensionMismatch ∧
    (∀ xLen g1 g2, simulate_dataset xLen g1 g2 theta =
      .error .dimensionMismatch) ∧
    (∀ fuel, 1 ≤ fuel →
      rejection_sampler env theta fuel = .error .dimensionMismatch) := by
  refine ⟨lnprior_wrong_length theta hlen,
    fun xLen g1 g2 => simulate_dataset_wrong_length xLen g1 g2 theta hlen,
    fun fuel hf => ?_⟩
  obtain ⟨k, rfl⟩ : ∃ k, fuel = k + 1 := ⟨fuel - 1, by omega⟩
  have hplen : (proposalAt env (initState env theta)).length ≠ 4 := by
    rw [proposalAt_length]
    simpa [initState] using hlen
  have herr : stepIter env (initState env theta) =
      .error .dimensionMismatch :=
    stepIter_error_of_prior_error env _ _
      (by rw [hp]; exact lnprior_wrong_length _ hplen)
  unfold rejection_sampler
  rw [runFuel, if_pos (by simp [initState]; omega), herr]

/-- C9 witness: the one-component vector `[5]` trips the dimension check in
the prior, the simulator, and the sampler run. -/
theorem wrong_dimension_fails_fast_witness :
    lnprior [(5 : ℚ)] = .error .dimensionMismatch ∧
    (∀ xLen g1 g2, simulate_dataset xLen g1 g2 [(5 : ℚ)] =
      .error .dimensionMismatch) ∧
    (∀ fuel, 1 ≤ fuel →
      rejection_sampler envAccept [(5 : ℚ)] fuel =
        .error .dimensionMismatch) :=
  wrong_dimension_fails_fast envAccept [5] rfl (by decide) (Nat.le_refl 1)

/-- C10: for a terminating run with `n_steps ≥ 1` the rate division is
well-defined (`total_steps ≥ 1`); with `n_steps = 0` the loop body never
executes, `total_steps` stays `0`, and the call fails with the
division-by-zero error instead of returning an empty chain. -/
theorem acceptance_rate_division (env : Env) (theta : List ℚ) (fuel : ℕ) :
    (∀ sf, runFuel env fuel (initState env theta) = .ok (some sf) →
      1 ≤ env.n_steps →
      1 ≤ sf.total_steps ∧
      finish sf = .ok (sf.samples,
        (sf.accepted_steps : ℚ) / (sf.total_steps : ℚ))) ∧
    (env.n_steps = 0 → 1 ≤ fuel →
      rejection_sampler env theta fuel = .error .zeroDivision) := by
  constructor
  · intro sf hrun hn
    have hge := runFuel_exit env fuel _ sf hrun
    have htot := run_accepted_le_total env fuel theta sf hrun
    exact ⟨by omega, by rw [finish, if_neg (by omega)]⟩
  · intro h0 hf
    obtain ⟨k, rfl⟩ : ∃ k, fuel = k + 1 := ⟨fuel - 1, by omega⟩
    unfold rejection_sampler
    rw [runFuel, if_neg (by simp [initState, h0])]
    show (match finish (initState env theta) with
      | .error e =>
        (.error e : Except SamplerError (Option (List (List ℚ) × ℚ)))
      | .ok out => .ok (some out)) = _
    rw [show finish (initState env theta) = .error .zeroDivision
      from if_pos rfl]

/-- C10 witness: the accepting fixture's run has `total_steps = 1` and a
well-defined rate, while the `n_steps = 0` fixture fails with the
division-by-zero error. -/
theorem acceptance_rate_division_witness :
    (1 ≤ sfA.total_steps ∧
      finish sfA = .ok (sfA.samples,
        (sfA.accepted_steps : ℚ) / (sfA.total_steps : ℚ))) ∧
    rejection_sampler envZero thetaA 1 = .error .zeroDivision :=
  ⟨(acceptance_rate_division envAccept thetaA 2).1 sfA
      (by norm_num [envAccept, thetaA, sfA, runFuel, stepIter, initState,
        proposalAt, propose_step, randnVec, lnprior, inBounds4, distance,
        PyFloat.isfinite, List.range_succ])
      (Nat.le_refl 1),
   (acceptance_rate_division envZero thetaA 1).2 rfl (Nat.le_refl 1)⟩

end AbcInteract
